import Mathlib

/-!
Verification development for the container-retention-policy engine.

The definitions below are shallow embeddings of the Rust source:

* `src/libs/core/src/lib.rs` / `src/src/cli/models.rs` — `Timestamp`,
  `TagSelection`, `Token`, `Account`, `Token::try_from_str`;
* `src/libs/client/src/responses.rs` — `PackageVersion`,
  `PackageVersion::get_relevant_timestamp`;
* `src/libs/client/src/lib.rs` — `PackageVersions`, `Counts`;
* `src/src/matchers.rs` — `Matchers` (over `wildmatch` glob patterns);
* `src/src/core/select_package_versions.rs` — `handle_keep_n_most_recent`,
  `contains_shas_to_skip`, `older_than_cutoff`, `filter_by_matchers`,
  `filter_by_tag_selection`, `filter_package_versions`,
  `select_package_versions` (steps C-F of the digest reconciliation);
* `src/src/core/delete_package_versions.rs` — `select_package_versions_to_delete`;
* `src/src/client/client.rs` — pagination/deletion request accounting,
  the rate-limit scope check, manifest handling;
* `src/src/client/urls.rs` — `percent_encode` (the `urlencoding` crate);
* `src/src/client/headers.rs` — `GithubHeaders::parse_link_header`.

Impure ingredients (HTTP responses, `Utc::now()`, manifest fetches) are
passed as explicit parameters, so every definition is executable.
Timestamps are modelled as `Int` (epoch seconds).
-/

namespace CRP

/-- `Timestamp` option, from `libs/core/src/lib.rs`. -/
inductive Timestamp where
  | updatedAt
  | createdAt
deriving DecidableEq, Repr

/-- `TagSelection` option, from `libs/core/src/lib.rs`. -/
inductive TagSelection where
  | tagged
  | untagged
  | both
deriving DecidableEq, Repr

/-- `Token` enum, from `src/src/cli/models.rs` (three variants; the secret is
kept as a plain string). -/
inductive Token where
  | classicPersonalAccess (secret : String)
  | oauth (secret : String)
  | temporal (secret : String)
deriving DecidableEq, Repr

/-- `ContainerMetadata`, from `libs/client/src/responses.rs`. -/
structure ContainerMetadata where
  tags : List String
deriving DecidableEq, Repr

/-- `Metadata`, from `libs/client/src/responses.rs`. -/
structure Metadata where
  container : ContainerMetadata
deriving DecidableEq, Repr

/-- `PackageVersion`, from `libs/client/src/responses.rs`; `name` is the
content digest, timestamps are epoch seconds. -/
structure PackageVersion where
  id : Nat
  name : String
  metadata : Metadata
  created_at : Int
  updated_at : Option Int
deriving DecidableEq, Repr

/-- `PackageVersion::get_relevant_timestamp`, from
`libs/client/src/responses.rs`: `created_at` for `CreatedAt`, and
`updated_at.unwrap_or(created_at)` for `UpdatedAt`. -/
def PackageVersion.get_relevant_timestamp (pv : PackageVersion) (ts : Timestamp) : Int :=
  match ts with
  | .createdAt => pv.created_at
  | .updatedAt => pv.updated_at.getD pv.created_at

/-- `PackageVersions`, from `libs/client/src/lib.rs`. -/
structure PackageVersions where
  untagged : List PackageVersion
  tagged : List PackageVersion
deriving DecidableEq, Repr

/-- `PackageVersions::len`, from `libs/client/src/lib.rs`. -/
def PackageVersions.len (pvs : PackageVersions) : Nat :=
  pvs.untagged.length + pvs.tagged.length

/-- `PackageVersions::extend`, from `libs/client/src/lib.rs`. -/
def PackageVersions.extend (pvs other : PackageVersions) : PackageVersions :=
  { untagged := pvs.untagged ++ other.untagged, tagged := pvs.tagged ++ other.tagged }

/-- Glob matching of the `wildmatch` crate (`WildMatchPattern<'*', '?'>`)
with an explicit recursion gas so that the definition is structurally
recursive (every recursive call shrinks `pattern.length + s.length` by at
least one, so gas equal to that sum never runs out; at gas 0 both lists
are empty and the first equation applies). -/
def wildMatchAux : Nat → List Char → List Char → Bool
  | _, [], [] => true
  | fuel + 1, '*' :: ps, [] => wildMatchAux fuel ps []
  | _, _ :: _, [] => false
  | _, [], _ :: _ => false
  | fuel + 1, '*' :: ps, c :: cs =>
      wildMatchAux fuel ps (c :: cs) || wildMatchAux fuel ('*' :: ps) cs
  | fuel + 1, '?' :: ps, _ :: cs => wildMatchAux fuel ps cs
  | fuel + 1, p :: ps, c :: cs => (p == c) && wildMatchAux fuel ps cs
  | 0, _, _ => false

/-- Glob matching of the `wildmatch` crate: `*` matches any run of
characters, `?` matches exactly one character, matching is anchored at
both ends. -/
def wildMatch (pattern s : List Char) : Bool :=
  wildMatchAux (pattern.length + s.length) pattern s

/-- `Matchers`, from `src/src/matchers.rs`: compiled positive and negative
glob patterns (patterns are kept as character lists). -/
structure Matchers where
  positive : List (List Char)
  negative : List (List Char)
deriving DecidableEq, Repr

/-- `Matchers::from`, from `src/src/matchers.rs`: a `!`-prefixed filter
becomes a negative pattern (without the `!`), anything else is positive. -/
def Matchers.from (filters : List String) : Matchers :=
  { positive := (filters.map String.toList).filter
      (fun p => match p with | '!' :: _ => false | _ => true)
    negative := (filters.map String.toList).filterMap
      (fun p => match p with | '!' :: rest => some rest | _ => none) }

/-- `Matchers::negative_match`, from `src/src/matchers.rs`. -/
def Matchers.negative_match (m : Matchers) (value : String) : Bool :=
  m.negative.any (fun pat => wildMatch pat value.toList)

/-- `Matchers::positive_match`, from `src/src/matchers.rs`. -/
def Matchers.positive_match (m : Matchers) (value : String) : Bool :=
  m.positive.any (fun pat => wildMatch pat value.toList)

/-- `Matchers::is_empty`, from `src/src/matchers.rs`. -/
def Matchers.is_empty (m : Matchers) : Bool :=
  m.positive.isEmpty && m.negative.isEmpty

/-- Outcome of `filter_by_matchers` in
`src/src/core/select_package_versions.rs`: the version is selected for
deletion (`Ok(Some(_))`), excluded with a `warn!` log that references the
frontend package-version URL (`Ok(None)` after `warn!`), or excluded with
only a `debug!` log (`Ok(None)`). -/
inductive MatcherVerdict where
  | selected
  | excludedWarn
  | excludedQuiet
deriving DecidableEq, Repr

/-- The positive-match counting loop of `filter_by_matchers`
(`src/src/core/select_package_versions.rs` lines 112-120): when there are no
positive patterns and no negative match, every tag counts as a positive
match; otherwise a tag counts iff `positive_match` accepts it. -/
def countPositiveMatches (m : Matchers) (anyNeg : Bool) (tags : List String) : Nat :=
  tags.foldl
    (fun acc tag =>
      if m.positive.isEmpty && !anyNeg then acc + 1
      else if m.positive_match tag then acc + 1
      else acc)
    0

/-- `filter_by_matchers`, from `src/src/core/select_package_versions.rs`
lines 94-152 (the decision on a tagged version's tag list; the returned
package version is the unchanged input, so only the verdict is modelled).
The match arms are kept in source order. -/
def filter_by_matchers (m : Matchers) (tags : List String) : MatcherVerdict :=
  if m.is_empty then .selected
  else
    let anyNeg := tags.any (fun tag => m.negative_match tag)
    let p := countPositiveMatches m anyNeg tags
    if anyNeg && decide (0 < p) then .excludedWarn
    else if anyNeg then .excludedQuiet
    else if p == tags.length then .selected
    else if p == 0 then .excludedQuiet
    else .excludedWarn

/-- `PackageVersionType`, from `src/src/core/select_package_versions.rs`. -/
inductive PackageVersionType where
  | tagged (pv : PackageVersion)
  | untagged (pv : PackageVersion)
deriving DecidableEq, Repr

/-- `filter_by_tag_selection`, from
`src/src/core/select_package_versions.rs` lines 165-193. -/
def filter_by_tag_selection (m : Matchers) (sel : TagSelection) (pv : PackageVersion) :
    Option PackageVersionType :=
  let hasNoTags := pv.metadata.container.tags.isEmpty
  match sel, hasNoTags with
  | .untagged, true => some (.untagged pv)
  | .both, true => some (.untagged pv)
  | .tagged, false =>
      match filter_by_matchers m pv.metadata.container.tags with
      | .selected => some (.tagged pv)
      | _ => none
  | .both, false =>
      match filter_by_matchers m pv.metadata.container.tags with
      | .selected => some (.tagged pv)
      | _ => none
  | .untagged, false => none
  | .tagged, true => none

/-- `contains_shas_to_skip`, from `src/src/core/select_package_versions.rs`. -/
def contains_shas_to_skip (shas_to_skip : List String) (pv : PackageVersion) : Bool :=
  shas_to_skip.contains pv.name

/-- `older_than_cutoff`, from `src/src/core/select_package_versions.rs`
lines 60-76: the version passes iff its relevant timestamp is strictly
before `now - cut_off` (`Utc::now()` is passed in as `now`). -/
def older_than_cutoff (pv : PackageVersion) (cut_off : Int) (ts : Timestamp) (now : Int) : Bool :=
  pv.get_relevant_timestamp ts < now - cut_off

/-- `filter_package_versions`, from
`src/src/core/select_package_versions.rs` lines 196-235: per-version
pipeline of sha-skip, cut-off and tag-selection filters, partitioning the
survivors into tagged/untagged deletion candidates in input order. -/
def filter_package_versions (pvs : List PackageVersion) (shas_to_skip : List String)
    (sel : TagSelection) (cut_off : Int) (ts : Timestamp) (m : Matchers) (now : Int) :
    PackageVersions :=
  match pvs with
  | [] => { untagged := [], tagged := [] }
  | pv :: rest =>
    let r := filter_package_versions rest shas_to_skip sel cut_off ts m now
    if contains_shas_to_skip shas_to_skip pv then r
    else if !older_than_cutoff pv cut_off ts now then r
    else
      match filter_by_tag_selection m sel pv with
      | some (.tagged v) => { untagged := r.untagged, tagged := v :: r.tagged }
      | some (.untagged v) => { untagged := v :: r.untagged, tagged := r.tagged }
      | none => r

/-- Stable insertion of `x` into a key-sorted list: `x` is placed before the
first element with a strictly greater key, so elements with equal keys keep
their original relative order (this is the guarantee of Rust's stable
`sort_by_key`). -/
def orderedInsertKey {α : Type} (key : α → Int) (x : α) : List α → List α
  | [] => [x]
  | y :: l => if key x ≤ key y then x :: y :: l else y :: orderedInsertKey key x l

/-- Stable sort by an `Int` key, modelling Rust's `sort_by_key` from
`handle_keep_n_most_recent`. -/
def sortByKey {α : Type} (key : α → Int) : List α → List α
  | [] => []
  | x :: l => orderedInsertKey key x (sortByKey key l)

/-- The `while !package_versions.is_empty() && kept < keep_n_most_recent`
pop loop of `handle_keep_n_most_recent`: remove the last element up to `n`
times. -/
def popLoop {α : Type} : List α → Nat → List α
  | l, 0 => l
  | l, n + 1 => if l.isEmpty then l else popLoop l.dropLast n

/-- `handle_keep_n_most_recent`, from
`src/src/core/select_package_versions.rs` lines 21-40: stable-sort the
tagged versions ascending by relevant timestamp, then pop the tail `n`
times (or until empty). -/
def handle_keep_n_most_recent (package_versions : List PackageVersion)
    (keep_n_most_recent : Nat) (timestamp_to_use : Timestamp) : List PackageVersion :=
  popLoop (sortByKey (fun p => p.get_relevant_timestamp timestamp_to_use) package_versions)
    keep_n_most_recent

section SortLemmas

variable {α : Type} (key : α → Int)

theorem length_orderedInsertKey (x : α) (l : List α) :
    (orderedInsertKey key x l).length = l.length + 1 := by
  induction l with
  | nil => rfl
  | cons y l ih =>
    simp only [orderedInsertKey]
    split <;> simp [ih]

theorem mem_orderedInsertKey {x a : α} {l : List α} :
    a ∈ orderedInsertKey key x l ↔ a = x ∨ a ∈ l := by
  induction l with
  | nil => simp [orderedInsertKey]
  | cons y l ih =>
    simp only [orderedInsertKey]
    split
    · simp
    · simp only [List.mem_cons, ih]
      tauto

theorem perm_orderedInsertKey (x : α) (l : List α) :
    (orderedInsertKey key x l).Perm (x :: l) := by
  induction l with
  | nil => simp [orderedInsertKey]
  | cons y l ih =>
    simp only [orderedInsertKey]
    split
    · exact List.Perm.refl _
    · exact (List.Perm.cons y ih).trans (List.Perm.swap x y l)

theorem perm_sortByKey (l : List α) : (sortByKey key l).Perm l := by
  induction l with
  | nil => exact List.Perm.refl _
  | cons x l ih =>
    exact (perm_orderedInsertKey key x (sortByKey key l)).trans (List.Perm.cons x ih)

theorem pairwise_orderedInsertKey {x : α} {l : List α}
    (h : l.Pairwise (fun a b => key a ≤ key b)) :
    (orderedInsertKey key x l).Pairwise (fun a b => key a ≤ key b) := by
  induction l with
  | nil => simp [orderedInsertKey]
  | cons y l ih =>
    simp only [orderedInsertKey]
    rcases List.pairwise_cons.mp h with ⟨hy, hl⟩
    split
    · rename_i hxy
      refine List.pairwise_cons.mpr ⟨?_, h⟩
      intro b hb
      rcases List.mem_cons.mp hb with rfl | hbl
      · exact hxy
      · exact le_trans hxy (hy b hbl)
    · rename_i hxy
      refine List.pairwise_cons.mpr ⟨?_, ih hl⟩
      intro b hb
      rcases (mem_orderedInsertKey key).mp hb with rfl | hbl
      · exact le_of_not_le hxy
      · exact hy b hbl

theorem pairwise_sortByKey (l : List α) :
    (sortByKey key l).Pairwise (fun a b => key a ≤ key b) := by
  induction l with
  | nil => simp [sortByKey]
  | cons x l ih => exact pairwise_orderedInsertKey key ih

theorem popLoop_eq_take (l : List α) (n : Nat) :
    popLoop l n = l.take (l.length - n) := by
  induction n generalizing l with
  | zero => simp [popLoop]
  | succ n ih =>
    simp only [popLoop]
    rcases l.eq_nil_or_concat with rfl | ⟨l', a, rfl⟩
    · simp
    · have hne : (l'.concat a).isEmpty = false := by simp
      rw [hne]
      simp only [Bool.false_eq_true, if_false, ih]
      have hdrop : (l'.concat a).dropLast = l' := by
        simp [List.concat_eq_append]
      have hlen : (l'.concat a).length = l'.length + 1 := by simp
      rw [hdrop, hlen]
      have h2 : l'.length + 1 - (n + 1) = l'.length - n := by omega
      rw [h2, List.concat_eq_append, List.take_append_of_le_length (by omega)]

theorem mem_popLoop {a : α} {l : List α} {n : Nat} (h : a ∈ popLoop l n) : a ∈ l := by
  rw [popLoop_eq_take] at h
  exact List.mem_of_mem_take h

theorem length_sortByKey (l : List α) : (sortByKey key l).length = l.length := by
  induction l with
  | nil => rfl
  | cons x l ih => simp [sortByKey, length_orderedInsertKey, ih]

end SortLemmas

/-- Per-package data flowing through `select_package_versions`
(`src/src/core/select_package_versions.rs`): the package name, its deletion
candidates from `filter_package_versions`, and all fetched versions
(the triple pushed onto `all_package_data`). -/
structure PackageData where
  name : String
  to_delete : PackageVersions
  all_versions : PackageVersions
deriving DecidableEq, Repr

/-- Step B/C front half of `select_package_versions` (lines 297-370): for
each package, combine tagged and untagged versions (tagged first, as
`tagged.iter().chain(untagged.iter())` does) and run
`filter_package_versions` to obtain the deletion candidates. -/
def package_delete_candidates (packages : List (String × PackageVersions))
    (shas_to_skip : List String) (sel : TagSelection) (cut_off : Int) (ts : Timestamp)
    (m : Matchers) (now : Int) : List PackageData :=
  packages.map (fun p =>
    { name := p.1
      to_delete :=
        filter_package_versions (p.2.tagged ++ p.2.untagged) shas_to_skip sel cut_off ts m now
      all_versions := p.2 })

/-- Step C of `select_package_versions` (lines 320-354): build the
`tag_is_kept` map. For each package, tags of kept tagged versions (those
whose id is not among the deletion candidates' ids) are inserted with
`true`, then tags of the deletion candidates are inserted with `false`;
later inserts overwrite earlier ones, so the map is modelled as an
association list with the most recent insert at the head. Keys are the
`format!("package_name:tag")` strings of the source. -/
def build_tag_is_kept (data : List PackageData) : List (String × Bool) :=
  data.foldl
    (fun acc d =>
      let to_delete_ids := d.to_delete.tagged.map (fun v => v.id)
      let kept_versions := d.all_versions.tagged.filter (fun v => !to_delete_ids.contains v.id)
      let acc1 := kept_versions.foldl
        (fun a v => v.metadata.container.tags.foldl
          (fun a2 t => (d.name ++ ":" ++ t, true) :: a2) a) acc
      d.to_delete.tagged.foldl
        (fun a v => v.metadata.container.tags.foldl
          (fun a2 t => (d.name ++ ":" ++ t, false) :: a2) a) acc1)
    []

/-- Lookup in the `tag_is_kept` map with the source's
`.get(&tag_key).copied().unwrap_or(false)` default. -/
def tag_is_kept_lookup (map : List (String × Bool)) (key : String) : Bool :=
  ((map.find? (fun kv => kv.1 == key)).map (fun kv => kv.2)).getD false

/-- Step D enumeration: the `(package, tag)` pairs for which
`fetch_image_manifest` is spawned — every tag of every tagged version of
every package (lines 356-367). -/
def all_tag_fetches (data : List PackageData) : List (String × String) :=
  data.flatMap (fun d =>
    d.all_versions.tagged.flatMap (fun v =>
      v.metadata.container.tags.map (fun t => (d.name, t))))

/-- Step E of `select_package_versions` (lines 379-410): categorize every
child digest returned by the manifest fetches into `kept_digests` or
`deleted_digests` according to `tag_is_kept` of the owning tag. The
manifest results are a parameter (`manifests pkg tag` is the digest list
`fetch_image_manifest` returned); sets are modelled as lists, where only
membership matters. -/
def categorized_digests (data : List PackageData)
    (manifests : String → String → List (String × Option String)) :
    List String × List String :=
  let tagKept := build_tag_is_kept data
  (all_tag_fetches data).foldl
    (fun acc pt =>
      let isKept := tag_is_kept_lookup tagKept (pt.1 ++ ":" ++ pt.2)
      (manifests pt.1 pt.2).foldl
        (fun a dp => if isKept then (dp.1 :: a.1, a.2) else (a.1, dp.1 :: a.2))
        acc)
    ([], [])

/-- The `kept_digests` set of `select_package_versions`. -/
def kept_digests (data : List PackageData)
    (manifests : String → String → List (String × Option String)) : List String :=
  (categorized_digests data manifests).1

/-- The `deleted_digests` set after the precedence rule of line 414
(`deleted_digests.retain(|d| !kept_digests.contains(d))`): kept wins on
conflict. -/
def final_deleted_digests (data : List PackageData)
    (manifests : String → String → List (String × Option String)) : List String :=
  (categorized_digests data manifests).2.filter
    (fun d => !(kept_digests data manifests).contains d)

/-- Step F of `select_package_versions` (lines 428-482), for one package:
move untagged versions whose digest belongs to a deleted tag into the
untagged deletion list, drop from it every version whose digest is
protected by a kept tag, drop protected versions from the tagged deletion
list, then apply `handle_keep_n_most_recent`. -/
def rewrite_package (kept deleted : List String) (keep_n : Nat) (ts : Timestamp)
    (d : PackageData) : String × PackageVersions :=
  let deleted_tag_digests := d.all_versions.untagged.filter (fun pv => deleted.contains pv.name)
  let untagged1 := d.to_delete.untagged ++ deleted_tag_digests
  let untagged2 := untagged1.filter (fun pv => !kept.contains pv.name)
  let tagged2 := d.to_delete.tagged.filter (fun pv => !kept.contains pv.name)
  (d.name, { untagged := untagged2, tagged := handle_keep_n_most_recent tagged2 keep_n ts })

/-- `select_package_versions`, from
`src/src/core/select_package_versions.rs` lines 240-494: the full
selection pipeline after the version fetch. `packages` carries the result
of step A (all versions of each package, already partitioned into
tagged/untagged), `manifests` the results of the `fetch_image_manifest`
calls of step D, and `now` the value of `Utc::now()`. Returns the
package-name to `PackageVersions`-to-delete mapping. -/
def select_package_versions (packages : List (String × PackageVersions))
    (manifests : String → String → List (String × Option String))
    (shas_to_skip : List String) (keep_n : Nat) (sel : TagSelection) (cut_off : Int)
    (ts : Timestamp) (m : Matchers) (now : Int) : List (String × PackageVersions) :=
  let data := package_delete_candidates packages shas_to_skip sel cut_off ts m now
  let kept := kept_digests data manifests
  let deleted := final_deleted_digests data manifests
  data.map (rewrite_package kept deleted keep_n ts)

/-- One delete task spawned by the deletion executor: the package name, the
version, and whether it came from the tagged (second-pass) list. -/
structure SpawnedDelete where
  package : String
  version : PackageVersion
  tagged : Bool
deriving DecidableEq, Repr

/-- The inner `for version in ...` loop of both passes of
`select_package_versions_to_delete` (`src/src/core/delete_package_versions.rs`):
spawn a delete for each version while `allocatable_requests > 0`,
decrementing it per spawn, breaking when it reaches 0. Returns the spawned
tasks in order and the remaining allocatable budget. -/
def spawnFromList (package : String) (taggedPass : Bool) :
    List PackageVersion → Nat → List SpawnedDelete × Nat
  | [], alloc => ([], alloc)
  | v :: vs, alloc =>
    if 0 < alloc then
      let r := spawnFromList package taggedPass vs (alloc - 1)
      ({ package := package, version := v, tagged := taggedPass } :: r.1, r.2)
    else ([], alloc)

/-- One pass of `select_package_versions_to_delete` over the package map
(iteration order is the input list's order): skip a package outright when
the budget is 0 (the early `return` of the closure), otherwise spawn from
its untagged (first pass) or tagged (second pass) list. -/
def executorPass (taggedPass : Bool) :
    List (String × PackageVersions) → Nat → List SpawnedDelete × Nat
  | [], alloc => ([], alloc)
  | (name, pvs) :: rest, alloc =>
    if alloc == 0 then executorPass taggedPass rest alloc
    else
      let r1 := spawnFromList name taggedPass (if taggedPass then pvs.tagged else pvs.untagged) alloc
      let r2 := executorPass taggedPass rest r1.2
      (r1.1 ++ r2.1, r2.2)

/-- Result of `select_package_versions_to_delete`: the spawned delete tasks
in spawn order, and whether the budget-exhaustion warning (which names the
rate-limit reset time) was logged — in which case the tagged pass is
skipped. -/
structure ExecutorResult where
  spawned : List SpawnedDelete
  warned : Bool
deriving DecidableEq, Repr

/-- `select_package_versions_to_delete`, from
`src/src/core/delete_package_versions.rs` lines 10-87: snapshot
`allocatable = counts.remaining_requests`, spawn untagged deletions first,
then — only if budget remains — tagged deletions; warn (with the reset
time) and skip the tagged pass when the budget is exhausted. -/
def select_package_versions_to_delete (package_version_map : List (String × PackageVersions))
    (allocatable : Nat) : ExecutorResult :=
  let first := executorPass false package_version_map allocatable
  if first.2 == 0 then { spawned := first.1, warned := true }
  else
    let second := executorPass true package_version_map first.2
    { spawned := first.1 ++ second.1, warned := false }

/-- The `Counts` tallies of `libs/client/src/lib.rs` that the request paths
read and write (`rate_limit_reset` is immutable and omitted). -/
structure Counts where
  remaining_requests : Nat
  package_versions : Nat
deriving DecidableEq, Repr

/-- `Package`, from `libs/client/src/responses.rs` (fields relevant to the
pagination model). -/
structure Package where
  id : Nat
  name : String
deriving DecidableEq, Repr

/-- One HTTP response page, as consumed by the pagination loops: the
deserialized items, the `x-ratelimit-remaining` response header, and
whether the `link` header carries a `rel="next"` URL. -/
structure Page (α : Type) where
  items : List α
  x_ratelimit_remaining : Nat
  has_next : Bool
deriving Repr

/-- `PackagesClient::fetch_packages_with_pagination`, from
`src/src/client/client.rs` lines 68-139. The successive response pages are
a parameter. Before each request the loop stops when
`counts.package_versions > counts.remaining_requests`; a page is followed
only when `x_ratelimit_remaining > 1` and a next link exists. The loop
never writes to `counts`. Returns the collected packages, the final
counts, and the number of requests issued. -/
def fetch_packages_with_pagination :
    List (Page Package) → Counts → List Package × Counts × Nat
  | [], c => ([], c, 0)
  | page :: rest, c =>
    if c.package_versions > c.remaining_requests then ([], c, 0)
    else
      let tail :=
        if page.x_ratelimit_remaining > 1 && page.has_next then
          fetch_packages_with_pagination rest c
        else ([], c, 0)
      (page.items ++ tail.1, tail.2.1, tail.2.2 + 1)

/-- `PackagesClient::fetch_package_versions_with_pagination`, from
`src/src/client/client.rs` lines 141-235. Before each request the loop
stops when `counts.package_versions > counts.remaining_requests +
rate_limit_offset`; after each page it decrements `remaining_requests` by
1 and adds the filtered page's size to `package_versions`. (In the source
the decrement is a `usize` subtraction that would panic at 0; `Nat`
subtraction is used here, and the theorems assume enough budget.) -/
def fetch_package_versions_with_pagination
    (filter_fn : List PackageVersion → PackageVersions) :
    List (Page PackageVersion) → Counts → Nat → PackageVersions × Counts × Nat
  | [], c, _ => ({ untagged := [], tagged := [] }, c, 0)
  | page :: rest, c, offset =>
    if c.package_versions > c.remaining_requests + offset then
      ({ untagged := [], tagged := [] }, c, 0)
    else
      let pvs := filter_fn page.items
      let c1 : Counts :=
        { remaining_requests := c.remaining_requests - 1
          package_versions := c.package_versions + pvs.len }
      let tail :=
        if page.x_ratelimit_remaining > 1 && page.has_next then
          fetch_package_versions_with_pagination filter_fn rest c1 offset
        else ({ untagged := [], tagged := [] }, c1, 0)
      (pvs.extend tail.1, tail.2.1, tail.2.2 + 1)

/-- `PackagesClient::fetch_individual_package`, from
`src/src/client/client.rs` lines 270-305: one request, one decrement of
`remaining_requests`. The fetched package is a parameter (the response
body); returns the package, the updated counts, and the request count. -/
def fetch_individual_package (response : Package) (c : Counts) : Package × Counts × Nat :=
  (response,
    { remaining_requests := c.remaining_requests - 1, package_versions := c.package_versions },
    1)

/-- HTTP status of a delete response, as distinguished by
`delete_package_version`. -/
inductive DeleteStatus where
  | noContent
  | unprocessableEntity
  | badRequest
  | other
deriving DecidableEq, Repr

/-- `PackagesClient::delete_package_version`, from
`src/src/client/client.rs` lines 333-442 (ANSI color codes in the display
names are omitted). On dry-run: no request, `Ok([])`. Otherwise one DELETE
request; 204 yields `Ok(names)`, anything else `Err(names)`. The function
has no access to `Counts` in the source; the counts pass through
unchanged. Returns the outcome, the (unchanged) counts, and the request
count. -/
def delete_package_version (package_name : String) (pv : PackageVersion) (dry_run : Bool)
    (status : DeleteStatus) (c : Counts) :
    (Except (List String) (List String)) × Counts × Nat :=
  let names :=
    if pv.metadata.container.tags.isEmpty then [package_name ++ ":<untagged>"]
    else pv.metadata.container.tags.map (fun tag => package_name ++ ":" ++ tag)
  if dry_run then (.ok [], c, 0)
  else
    match status with
    | .noContent => (.ok names, c, 1)
    | _ => (.error names, c, 1)

/-- Substring test (`str::contains` of Rust): `needle` occurs somewhere in
`haystack`. -/
def containsSubstr (haystack needle : List Char) : Bool :=
  haystack.tails.any (fun t => needle.isPrefixOf t)

/-- The scope check of `PackagesClient::fetch_rate_limit`, from
`src/src/client/client.rs` lines 465-479. The source `match self.token`
has arms only for `Temporal` (no check) and `ClassicPersonalAccess`
(require the `x-oauth-scopes` header to exist and contain
`delete:packages`, else print an error and `exit(1)`); the `Oauth` variant
of `Token` is not covered by any arm, so its behavior is undefined —
modelled as `none`. `some true` means the check passes, `some false` means
the fatal exit. -/
def fetch_rate_limit_scope_check (token : Token) (x_oauth_scopes : Option String) :
    Option Bool :=
  match token with
  | .temporal _ => some true
  | .classicPersonalAccess _ =>
    match x_oauth_scopes with
    | none => some false
    | some scopes => some (containsSubstr scopes.toList "delete:packages".toList)
  | .oauth _ => none

/-- `str::trim_matches(c)` of Rust: remove every leading and every
trailing occurrence of `c`. -/
def trimMatchesChar (c : Char) (s : List Char) : List Char :=
  ((s.dropWhile (fun x => x == c)).reverse.dropWhile (fun x => x == c)).reverse

/-- A url-safe base62 character: `[a-zA-Z0-9]`. -/
def isUrlSafeBase62 (c : Char) : Bool :=
  ('a' ≤ c && c ≤ 'z') || ('A' ≤ c && c ≤ 'Z') || ('0' ≤ c && c ≤ '9')

/-- `Regex::is_match` of the end-anchored pattern
`PRE[a-zA-Z0-9]{36}$` (with `PRE` a 4-character literal prefix), as used
by `Token::try_from_str`: since the pattern is anchored only at the end
and matches exactly 40 characters, `is_match` holds iff the string's last
40 characters are `PRE` followed by 36 url-safe base62 characters. -/
def tokenRegexIsMatch (pre : List Char) (s : List Char) : Bool :=
  decide (40 ≤ s.length) && ((s.drop (s.length - 40)).take 4 == pre)
    && ((s.drop (s.length - 36)).all isUrlSafeBase62)

/-- `Token::try_from_str`, from `src/src/cli/models.rs` lines 59-86: strip
surrounding double-quotes with `trim_matches('"')`, then test the three
end-anchored regexes in order `ghp_`, `ghs_`, `gho_`. -/
def try_from_str (value : List Char) : Except String Token :=
  let trimmed := trimMatchesChar '"' value
  if tokenRegexIsMatch "ghp_".toList trimmed then
    .ok (.classicPersonalAccess (String.mk trimmed))
  else if tokenRegexIsMatch "ghs_".toList trimmed then
    .ok (.temporal (String.mk trimmed))
  else if tokenRegexIsMatch "gho_".toList trimmed then
    .ok (.oauth (String.mk trimmed))
  else
    .error "The token value is not valid."

/-- The whole-string reading of the token format. Modelled from the spec:
the stripped string is exactly the 4-character prefix plus 36 url-safe
base62 characters (`ghp_[A-Za-z0-9]{36}` matched against the entire
string), which is what the claim asserts `try_from_str` recognizes. -/
def spec_token_full_match (pre : List Char) (s : List Char) : Bool :=
  (s.length == 40) && (s.take 4 == pre) && ((s.drop 4).all isUrlSafeBase62)

/-- Upper-case hexadecimal digit for a value below 16. -/
def hexDigitUpper (n : Nat) : Char :=
  if n < 10 then Char.ofNat (48 + n) else Char.ofNat (65 + (n - 10))

/-- A byte left untouched by `urlencoding::encode` (the crate behind
`Urls::percent_encode` in `src/src/client/urls.rs`): ASCII alphanumerics
and `-`, `.`, `_`, `~`. -/
def isUrlUnreserved (b : Nat) : Bool :=
  (65 ≤ b && b ≤ 90) || (97 ≤ b && b ≤ 122) || (48 ≤ b && b ≤ 57)
    || b == 45 || b == 46 || b == 95 || b == 126

/-- Encoding of one byte by `urlencoding::encode`: unreserved bytes pass
through, every other byte becomes `%` plus two upper-case hex digits. -/
def percentEncodeByte (b : Nat) : List Char :=
  if isUrlUnreserved b then [Char.ofNat b]
  else ['%', hexDigitUpper (b / 16 % 16), hexDigitUpper (b % 16)]

/-- `Urls::percent_encode`, from `src/src/client/urls.rs` lines 73-77
(`urlencoding::encode(n).to_string()`), over the UTF-8 bytes of the input;
for the ASCII inputs of the claims a character is one byte. -/
def percent_encode (bytes : List Nat) : List Char :=
  bytes.flatMap percentEncodeByte

/-- The UTF-8 bytes of an ASCII string, as a list of byte values (valid
when every character is below 128). -/
def asciiBytes (s : List Char) : List Nat :=
  s.map Char.toNat

/-- Split a character list on a separator character (Rust's
`str::split(c)`); without any separator the whole input is the single
part. -/
def splitOnChar (sep : Char) (s : List Char) : List (List Char) :=
  match s with
  | [] => [[]]
  | c :: rest =>
    let r := splitOnChar sep rest
    if c == sep then [] :: r
    else
      match r with
      | [] => [[c]]
      | p :: ps => (c :: p) :: ps

/-- Rust's `str::trim` restricted to ASCII whitespace: drop leading and
trailing spaces, tabs, newlines and carriage returns. -/
def trimAsciiWs (s : List Char) : List Char :=
  let isWs := fun c => c == ' ' || c == '\t' || c == '\n' || c == '\r'
  ((s.dropWhile isWs).reverse.dropWhile isWs).reverse

/-- A comma-part skipped by `GithubHeaders::parse_link_header`
(`src/src/client/headers.rs` lines 54-63): it contains one of the
substrings `prev`, `first`, `last` (checked in that order, before
`next`). -/
def linkPartSkipped (part : List Char) : Bool :=
  containsSubstr part "prev".toList || containsSubstr part "first".toList
    || containsSubstr part "last".toList

/-- The per-part loop of `GithubHeaders::parse_link_header`. `Except`
models the two `panic!`/`assert_eq!` aborts: a part containing none of
`prev`/`first`/`last`/`next` panics with "unrecognized rel type", and a
selected `next` part whose `;`-split does not have exactly two sections
fails the assert. On success the extracted URL text (the first section,
trimmed and stripped of `<`/`>`) is returned; `Url::parse` itself is not
modelled. -/
def parse_link_parts : List (List Char) → Except String (Option (List Char))
  | [] => .ok none
  | part :: rest =>
    if containsSubstr part "prev".toList then parse_link_parts rest
    else if containsSubstr part "first".toList then parse_link_parts rest
    else if containsSubstr part "last".toList then parse_link_parts rest
    else if containsSubstr part "next".toList then
      let sections := splitOnChar ';' (trimAsciiWs part)
      if sections.length == 2 then
        .ok (some (trimMatchesChar '>' (trimMatchesChar '<'
          (trimAsciiWs (sections.headD [])))))
      else .error "assert failed: sections length was not 2"
    else .error "Found unrecognized rel type"

/-- `GithubHeaders::parse_link_header`, from `src/src/client/headers.rs`
lines 50-77: `None` for the empty string, otherwise scan the
comma-separated parts. -/
def parse_link_header (link_header : List Char) : Except String (Option (List Char)) :=
  if link_header.isEmpty then .ok none
  else parse_link_parts (splitOnChar ',' link_header)

/-! ## Claim theorems -/

/-- Shorthand for building concrete `PackageVersion` values in examples. -/
def mkPV (id : Nat) (name : String) (tags : List String) (created : Int)
    (updated : Option Int) : PackageVersion :=
  { id := id, name := name, metadata := { container := { tags := tags } },
    created_at := created, updated_at := updated }

/-- The relevant-timestamp sort key used by `handle_keep_n_most_recent`. -/
def relKey (ts : Timestamp) : PackageVersion → Int :=
  fun p => p.get_relevant_timestamp ts

/-- C3: `handle_keep_n_most_recent(vs, n, ts)` returns exactly
`max(|vs| - n, 0)` items (as the truncated subtraction `|vs| - n`); the
returned survivors are the initial segment of `vs` stably sorted ascending
by relevant timestamp, hence are themselves in ascending order; the
omitted items are the complementary suffix of that sorted permutation of
`vs`, and each omitted item's relevant timestamp is at least every
survivor's — they are the `n` relevant-timestamp-greatest elements. -/
theorem handle_keep_n_most_recent_spec (vs : List PackageVersion) (n : Nat) (ts : Timestamp) :
    handle_keep_n_most_recent vs n ts = (sortByKey (relKey ts) vs).take (vs.length - n)
    ∧ (handle_keep_n_most_recent vs n ts).length = vs.length - n
    ∧ (handle_keep_n_most_recent vs n ts).Pairwise (fun a b => relKey ts a ≤ relKey ts b)
    ∧ handle_keep_n_most_recent vs n ts ++ (sortByKey (relKey ts) vs).drop (vs.length - n)
        = sortByKey (relKey ts) vs
    ∧ (sortByKey (relKey ts) vs).Perm vs
    ∧ ∀ x ∈ handle_keep_n_most_recent vs n ts,
        ∀ y ∈ (sortByKey (relKey ts) vs).drop (vs.length - n), relKey ts x ≤ relKey ts y := by
  have hsortlen : (sortByKey (relKey ts) vs).length = vs.length :=
    length_sortByKey (relKey ts) vs
  have htake : handle_keep_n_most_recent vs n ts
      = (sortByKey (relKey ts) vs).take (vs.length - n) := by
    unfold handle_keep_n_most_recent relKey
    rw [popLoop_eq_take, length_sortByKey]
  have hpw : (sortByKey (relKey ts) vs).Pairwise (fun a b => relKey ts a ≤ relKey ts b) :=
    pairwise_sortByKey (relKey ts) vs
  have hsplit : handle_keep_n_most_recent vs n ts
      ++ (sortByKey (relKey ts) vs).drop (vs.length - n) = sortByKey (relKey ts) vs := by
    rw [htake]; exact List.take_append_drop _ _
  refine ⟨htake, ?_, ?_, hsplit, perm_sortByKey (relKey ts) vs, ?_⟩
  · rw [htake, List.length_take, hsortlen]
    omega
  · rw [htake]
    exact hpw.sublist (List.take_sublist _ _)
  · intro x hx y hy
    have hpw2 := hsplit ▸ hpw
    exact (List.pairwise_append.mp hpw2).2.2 x hx y hy

/-- Witness for C3 at a concrete input: with three tagged versions created
10, 5 and 0 minutes ago and `keep_n_most_recent = 1` under `CreatedAt`,
two versions survive in the delete list. -/
theorem handle_keep_n_most_recent_spec_witness :
    (handle_keep_n_most_recent
      [mkPV 0 "a" [] (-300) none, mkPV 1 "b" [] 0 none, mkPV 2 "c" [] (-600) none]
      1 .createdAt).length = 2 :=
  (handle_keep_n_most_recent_spec
    [mkPV 0 "a" [] (-300) none, mkPV 1 "b" [] 0 none, mkPV 2 "c" [] (-600) none]
    1 .createdAt).2.1

/-- The claim's `N`: some tag matches a negative pattern. -/
def tagN (m : Matchers) (tags : List String) : Bool :=
  tags.any (fun tag => m.negative_match tag)

/-- The claim's `P`: the number of tags matching a positive pattern, with
every tag counting when there are no positive patterns and `N` is false. -/
def tagP (m : Matchers) (tags : List String) : Nat :=
  countPositiveMatches m (tagN m tags) tags

theorem filter_by_matchers_cases (m : Matchers) (tags : List String) :
    filter_by_matchers m tags =
      (if m.is_empty then .selected
       else if tagN m tags && decide (0 < tagP m tags) then .excludedWarn
       else if tagN m tags then .excludedQuiet
       else if tagP m tags == tags.length then .selected
       else if tagP m tags == 0 then .excludedQuiet
       else .excludedWarn) := rfl

/-- C2: for a package version with a non-empty tag list under
`TagSelection::Tagged` or `::Both`, the version lands in the tagged delete
bucket iff the matchers are empty or (`N` false and `P = |tags|`); in the
conflict case (`N` and `P > 0`) and the partial case (`¬N`, `0 < P <
|tags|`) it is excluded by the warning branch of `filter_by_matchers`
(whose `warn!` message carries the frontend package-version URL); the
remaining cases are excluded by the quiet (`debug!`) branches; and any
non-selected verdict excludes the version from both buckets. -/
theorem filter_by_tag_selection_spec (m : Matchers) (sel : TagSelection) (pv : PackageVersion)
    (htags : pv.metadata.container.tags ≠ [])
    (hsel : sel = TagSelection.tagged ∨ sel = TagSelection.both) :
    (filter_by_tag_selection m sel pv = some (.tagged pv)
      ↔ (m.is_empty = true
          ∨ (tagN m pv.metadata.container.tags = false
              ∧ tagP m pv.metadata.container.tags = pv.metadata.container.tags.length)))
    ∧ (tagN m pv.metadata.container.tags = true →
        0 < tagP m pv.metadata.container.tags →
        filter_by_matchers m pv.metadata.container.tags = .excludedWarn)
    ∧ (tagN m pv.metadata.container.tags = false →
        0 < tagP m pv.metadata.container.tags →
        tagP m pv.metadata.container.tags < pv.metadata.container.tags.length →
        filter_by_matchers m pv.metadata.container.tags = .excludedWarn)
    ∧ (tagN m pv.metadata.container.tags = true →
        tagP m pv.metadata.container.tags = 0 →
        filter_by_matchers m pv.metadata.container.tags = .excludedQuiet)
    ∧ (tagN m pv.metadata.container.tags = false →
        tagP m pv.metadata.container.tags = 0 →
        m.is_empty = false →
        filter_by_matchers m pv.metadata.container.tags = .excludedQuiet)
    ∧ (filter_by_matchers m pv.metadata.container.tags ≠ .selected →
        filter_by_tag_selection m sel pv = none) := by
  have hne : pv.metadata.container.tags.isEmpty = false := by
    cases h : pv.metadata.container.tags with
    | nil => exact absurd h htags
    | cons a l => rfl
  have hfts : filter_by_tag_selection m sel pv =
      (match filter_by_matchers m pv.metadata.container.tags with
       | .selected => some (.tagged pv)
       | _ => none) := by
    rcases hsel with rfl | rfl <;> simp only [filter_by_tag_selection, hne]
  have hempty_neg : m.is_empty = true → tagN m pv.metadata.container.tags = false := by
    intro hm
    have hnegnil : m.negative.isEmpty = true := by
      unfold Matchers.is_empty at hm
      exact (Bool.and_eq_true_iff.mp hm).2
    unfold tagN Matchers.negative_match
    simp only [List.any_eq_false]
    intro t _
    rw [List.isEmpty_iff.mp hnegnil]
    simp
  have hcases := filter_by_matchers_cases m pv.metadata.container.tags
  constructor
  · rw [hfts]
    by_cases hm : m.is_empty = true
    · rw [hcases, if_pos hm]
      simp [hm]
    · rw [hcases, if_neg hm]
      by_cases hN : tagN m pv.metadata.container.tags = true
      · by_cases hP : 0 < tagP m pv.metadata.container.tags
        · simp [hN, hP, hm]
        · simp [hN, hP, hm]
      · have hN' : tagN m pv.metadata.container.tags = false := by
          cases h : tagN m pv.metadata.container.tags
          · rfl
          · exact absurd h hN
        by_cases hPl : tagP m pv.metadata.container.tags = pv.metadata.container.tags.length
        · simp [hN', hPl, hm]
        · by_cases hP0 : tagP m pv.metadata.container.tags = 0
          · have h0l : ¬ (0 = pv.metadata.container.tags.length) :=
              fun h => hPl (hP0.trans h)
            simp [hN', hPl, hP0, hm, h0l]
          · simp [hN', hPl, hP0, hm]
  refine ⟨?_, ?_, ?_, ?_, ?_⟩
  · intro hN hP
    have hm : m.is_empty = false := by
      cases h : m.is_empty
      · rfl
      · rw [hempty_neg h] at hN; exact absurd hN (by simp)
    rw [hcases, if_neg (by simp [hm])]
    simp [hN, hP]
  · intro hN hP hPl
    have hm : ¬ (m.is_empty = true) := by
      intro hm
      rw [hcases, if_pos hm] at hcases
      -- is_empty implies P counts every tag, contradicting hPl
      have : tagP m pv.metadata.container.tags = pv.metadata.container.tags.length := by
        have hposnil : m.positive.isEmpty = true := by
          unfold Matchers.is_empty at hm
          exact (Bool.and_eq_true_iff.mp hm).1
        unfold tagP countPositiveMatches
        rw [hN]
        simp only [hposnil, Bool.not_false, Bool.true_and, if_true]
        have hgen : ∀ (l : List String) (a : Nat),
            l.foldl (fun acc _ => acc + 1) a = a + l.length := by
          intro l
          induction l with
          | nil => intro a; simp
          | cons x xs ih => intro a; simp [ih]; omega
        have := hgen pv.metadata.container.tags 0
        simpa using this
      omega
    rw [hcases, if_neg hm]
    have hP0 : ¬ (tagP m pv.metadata.container.tags == 0) = true := by
      simp; omega
    have hPlen : ¬ (tagP m pv.metadata.container.tags
        == pv.metadata.container.tags.length) = true := by
      simp; omega
    simp [hN, hP0, hPlen]
  · intro hN hP
    have hm : m.is_empty = false := by
      cases h : m.is_empty
      · rfl
      · rw [hempty_neg h] at hN; exact absurd hN (by simp)
    rw [hcases, if_neg (by simp [hm])]
    simp [hN, hP]
  · intro hN hP hm
    rw [hcases, if_neg (by simp [hm])]
    have h0l : ¬ (0 = pv.metadata.container.tags.length) := by
      intro h
      exact htags (List.length_eq_zero.mp h.symm)
    simp [hN, hP, h0l]
  · intro hsel'
    rw [hfts]
    cases h : filter_by_matchers m pv.metadata.container.tags
    · exact absurd h hsel'
    · rfl
    · rfl

/-- Witness for C2 at the conflict-tag scenario of the spec: tags
`["latest", "v1"]` with filters `["v*", "!latest"]` hit both a negative and
a positive pattern, so the version is excluded with a warning. -/
theorem filter_by_tag_selection_spec_witness :
    filter_by_matchers (Matchers.from ["v*", "!latest"]) ["latest", "v1"]
      = MatcherVerdict.excludedWarn :=
  (filter_by_tag_selection_spec (Matchers.from ["v*", "!latest"]) TagSelection.both
      (mkPV 0 "" ["latest", "v1"] 0 none) (by decide) (Or.inr rfl)).2.1
    (by decide) (by decide)

/-- C8: a package version survives the cut-off filter (stays a deletion
candidate) iff its relevant timestamp is strictly older than
`now - cut_off`; a version failing the test is discarded by
`filter_package_versions` (it reaches neither bucket); and for a 1h
cut-off a version whose relevant timestamp is exactly 59 minutes old is
discarded while one 61 minutes old is selected. -/
theorem older_than_cutoff_spec (pv : PackageVersion) (cut_off : Int) (ts : Timestamp)
    (now : Int) :
    (older_than_cutoff pv cut_off ts now = true
      ↔ pv.get_relevant_timestamp ts < now - cut_off)
    ∧ (older_than_cutoff pv cut_off ts now = false →
        ∀ shas sel m, filter_package_versions [pv] shas sel cut_off ts m now
          = { untagged := [], tagged := [] })
    ∧ older_than_cutoff (mkPV 0 "v" [] (now - 3540) none) 3600 ts now = false
    ∧ older_than_cutoff (mkPV 0 "v" [] (now - 3660) none) 3600 ts now = true := by
  refine ⟨by simp [older_than_cutoff], ?_, ?_, ?_⟩
  · intro h shas sel m
    by_cases hc : contains_shas_to_skip shas pv = true <;>
      simp [filter_package_versions, h, hc]
  · cases ts <;>
      simp [older_than_cutoff, mkPV, PackageVersion.get_relevant_timestamp]
  · cases ts <;>
      simp [older_than_cutoff, mkPV, PackageVersion.get_relevant_timestamp]

/-- Witness for C8 at a concrete input: a version 100 seconds old is not
older than a 1h cut-off, so the filter discards it entirely. -/
theorem older_than_cutoff_spec_witness :
    filter_package_versions [mkPV 1 "x" [] (-100) none] [] TagSelection.both 3600
      Timestamp.updatedAt (Matchers.from []) 0 = { untagged := [], tagged := [] } :=
  (older_than_cutoff_spec (mkPV 1 "x" [] (-100) none) 3600 Timestamp.updatedAt 0).2.1
    (by decide) [] TagSelection.both (Matchers.from [])

theorem mem_handle_keep_n_most_recent {v : PackageVersion} {l : List PackageVersion}
    {n : Nat} {ts : Timestamp} (h : v ∈ handle_keep_n_most_recent l n ts) : v ∈ l := by
  unfold handle_keep_n_most_recent at h
  exact (perm_sortByKey _ l).mem_iff.mp (mem_popLoop h)

/-- C1: after the delete-set rewrite of `select_package_versions`, no
package version whose content digest (its `name`) lies in `kept_digests` —
the child digests that the manifest fetches returned for tags classified
as kept, with kept taking precedence over deleted on digest conflicts —
remains in either the tagged or the untagged deletion list of any package;
this includes untagged versions that were first moved into the deletion
list because their digest belonged to a deleted tag, since the protective
filter runs after that move. -/
theorem select_package_versions_digest_protection
    (packages : List (String × PackageVersions))
    (manifests : String → String → List (String × Option String))
    (shas_to_skip : List String) (keep_n : Nat) (sel : TagSelection) (cut_off : Int)
    (ts : Timestamp) (m : Matchers) (now : Int)
    (pr : String × PackageVersions)
    (hpr : pr ∈ select_package_versions packages manifests shas_to_skip keep_n sel cut_off
      ts m now)
    (v : PackageVersion) (hv : v ∈ pr.2.untagged ∨ v ∈ pr.2.tagged) :
    (kept_digests (package_delete_candidates packages shas_to_skip sel cut_off ts m now)
      manifests).contains v.name = false := by
  unfold select_package_versions at hpr
  rcases List.mem_map.mp hpr with ⟨d, hd, heq⟩
  rcases hv with hv | hv
  · rw [← heq] at hv
    simp only [rewrite_package] at hv
    have hmem := List.mem_filter.mp hv
    have hb := hmem.2
    simp only [Bool.not_eq_true'] at hb
    exact hb
  · rw [← heq] at hv
    simp only [rewrite_package] at hv
    have hv2 := mem_handle_keep_n_most_recent hv
    have hmem := List.mem_filter.mp hv2
    have hb := hmem.2
    simp only [Bool.not_eq_true'] at hb
    exact hb

/-- Concrete input for the C1 witness: one package with a kept tag `keep`
(manifest child digest `sha256:AA`), a deleted tag `drop` (child digest
`sha256:CC`), and untagged versions carrying exactly those digests. -/
def c1Packages : List (String × PackageVersions) :=
  [("P",
    { tagged := [mkPV 1 "sha256:K" ["keep"] (-10000) none,
                 mkPV 2 "sha256:D" ["drop"] (-10000) none]
      untagged := [mkPV 3 "sha256:AA" [] (-10000) none,
                   mkPV 4 "sha256:CC" [] (-10000) none] })]

/-- Manifest fetch results for the C1 witness scenario. -/
def c1Manifests : String → String → List (String × Option String) :=
  fun _ tag =>
    if tag == "keep" then [("sha256:AA", none)]
    else if tag == "drop" then [("sha256:CC", none)]
    else []

/-- Witness for C1 at the digest-protection scenario: the version moved
into the untagged deletion list (digest `sha256:CC` of the deleted tag)
is not protected, i.e. its digest is indeed outside `kept_digests`. -/
theorem select_package_versions_digest_protection_witness :
    (kept_digests
      (package_delete_candidates c1Packages [] TagSelection.both 3600 Timestamp.updatedAt
        (Matchers.from ["drop"]) 0)
      c1Manifests).contains "sha256:CC" = false :=
  select_package_versions_digest_protection c1Packages c1Manifests [] 0 TagSelection.both
    3600 Timestamp.updatedAt (Matchers.from ["drop"]) 0
    ("P",
      { untagged := [mkPV 4 "sha256:CC" [] (-10000) none, mkPV 4 "sha256:CC" [] (-10000) none]
        tagged := [mkPV 2 "sha256:D" ["drop"] (-10000) none] })
    (by decide)
    (mkPV 4 "sha256:CC" [] (-10000) none)
    (Or.inl (by decide))

theorem spawnFromList_length_le (p : String) (tp : Bool) (vs : List PackageVersion)
    (a : Nat) : (spawnFromList p tp vs a).1.length ≤ a := by
  induction vs generalizing a with
  | nil => simp [spawnFromList]
  | cons v vs ih =>
    simp only [spawnFromList]
    split
    · rename_i h
      have := ih (a - 1)
      simp only [List.length_cons]
      omega
    · simp

theorem spawnFromList_snd (p : String) (tp : Bool) (vs : List PackageVersion) (a : Nat) :
    (spawnFromList p tp vs a).2 = a - (spawnFromList p tp vs a).1.length := by
  induction vs generalizing a with
  | nil => simp [spawnFromList]
  | cons v vs ih =>
    simp only [spawnFromList]
    split
    · rename_i h
      have := ih (a - 1)
      simp only [List.length_cons]
      omega
    · simp

theorem spawnFromList_tagged (p : String) (tp : Bool) (vs : List PackageVersion) (a : Nat) :
    ∀ x ∈ (spawnFromList p tp vs a).1, x.tagged = tp := by
  induction vs generalizing a with
  | nil => simp [spawnFromList]
  | cons v vs ih =>
    simp only [spawnFromList]
    split
    · rename_i h
      intro x hx
      rcases List.mem_cons.mp hx with rfl | hx2
      · rfl
      · exact ih (a - 1) x hx2
    · simp

theorem executorPass_length_le (tp : Bool) (mvs : List (String × PackageVersions))
    (a : Nat) : (executorPass tp mvs a).1.length ≤ a := by
  induction mvs generalizing a with
  | nil => simp [executorPass]
  | cons pkg rest ih =>
    rcases pkg with ⟨name, pvs⟩
    simp only [executorPass]
    split
    · exact ih a
    · have hs := spawnFromList_length_le name tp (if tp then pvs.tagged else pvs.untagged) a
      have hsnd := spawnFromList_snd name tp (if tp then pvs.tagged else pvs.untagged) a
      have hr := ih (spawnFromList name tp (if tp then pvs.tagged else pvs.untagged) a).2
      simp only [List.length_append]
      omega

theorem executorPass_snd (tp : Bool) (mvs : List (String × PackageVersions)) (a : Nat) :
    (executorPass tp mvs a).2 = a - (executorPass tp mvs a).1.length := by
  induction mvs generalizing a with
  | nil => simp [executorPass]
  | cons pkg rest ih =>
    rcases pkg with ⟨name, pvs⟩
    simp only [executorPass]
    split
    · rename_i h
      have h0 : a = 0 := by simpa using h
      subst h0
      have := ih 0
      omega
    · have hs := spawnFromList_length_le name tp (if tp then pvs.tagged else pvs.untagged) a
      have hsnd := spawnFromList_snd name tp (if tp then pvs.tagged else pvs.untagged) a
      have hr := ih (spawnFromList name tp (if tp then pvs.tagged else pvs.untagged) a).2
      have hr2 := executorPass_length_le tp rest
        (spawnFromList name tp (if tp then pvs.tagged else pvs.untagged) a).2
      simp only [List.length_append]
      omega

theorem executorPass_tagged (tp : Bool) (mvs : List (String × PackageVersions)) (a : Nat) :
    ∀ x ∈ (executorPass tp mvs a).1, x.tagged = tp := by
  induction mvs generalizing a with
  | nil => simp [executorPass]
  | cons pkg rest ih =>
    rcases pkg with ⟨name, pvs⟩
    simp only [executorPass]
    split
    · exact ih a
    · intro x hx
      rcases List.mem_append.mp hx with hx1 | hx2
      · exact spawnFromList_tagged name tp _ a x hx1
      · exact ih _ x hx2

/-- Two packages with three untagged and one tagged deletion candidate
each — the budget-exhaustion scenario of the spec with
`remaining_requests = 3`. -/
def c4Map : List (String × PackageVersions) :=
  [("p1",
    { untagged := [mkPV 10 "u1" [] 0 none, mkPV 11 "u2" [] 0 none, mkPV 12 "u3" [] 0 none]
      tagged := [mkPV 16 "t1" ["a"] 0 none] }),
   ("p2",
    { untagged := [mkPV 13 "u4" [] 0 none, mkPV 14 "u5" [] 0 none, mkPV 15 "u6" [] 0 none]
      tagged := [mkPV 17 "t2" ["b"] 0 none] })]

/-- C4: the deletion executor spawns at most `allocatable` delete tasks in
total; the spawn order is all untagged deletions followed by all tagged
ones; the budget-exhaustion warning fires exactly when the untagged pass
consumed the whole budget, and then no tagged deletion is spawned at all;
and in the concrete scenario of six untagged plus two tagged candidates
across two packages with a budget of 3, exactly three deletes are issued,
all untagged, with the warning logged. -/
theorem select_package_versions_to_delete_spec
    (mvs : List (String × PackageVersions)) (alloc : Nat) :
    (select_package_versions_to_delete mvs alloc).spawned.length ≤ alloc
    ∧ (∃ u t, (select_package_versions_to_delete mvs alloc).spawned = u ++ t
        ∧ (∀ x ∈ u, x.tagged = false) ∧ (∀ x ∈ t, x.tagged = true))
    ∧ ((select_package_versions_to_delete mvs alloc).warned = true
        ↔ ((select_package_versions_to_delete mvs alloc).spawned.filter
            (fun x => !x.tagged)).length = alloc)
    ∧ ((select_package_versions_to_delete mvs alloc).warned = true →
        ∀ x ∈ (select_package_versions_to_delete mvs alloc).spawned, x.tagged = false)
    ∧ ((select_package_versions_to_delete c4Map 3).spawned.length = 3
        ∧ (∀ x ∈ (select_package_versions_to_delete c4Map 3).spawned, x.tagged = false)
        ∧ (select_package_versions_to_delete c4Map 3).warned = true) := by
  have h1le := executorPass_length_le false mvs alloc
  have h1snd := executorPass_snd false mvs alloc
  have h1tag := executorPass_tagged false mvs alloc
  have hconcrete : (select_package_versions_to_delete c4Map 3).spawned.length = 3
      ∧ (∀ x ∈ (select_package_versions_to_delete c4Map 3).spawned, x.tagged = false)
      ∧ (select_package_versions_to_delete c4Map 3).warned = true := by decide
  by_cases hz : (executorPass false mvs alloc).2 = 0
  · have hsel : select_package_versions_to_delete mvs alloc
        = { spawned := (executorPass false mvs alloc).1, warned := true } := by
      unfold select_package_versions_to_delete
      simp [hz]
    rw [hsel]
    have hlen : (executorPass false mvs alloc).1.length = alloc := by omega
    have hfilter : ((executorPass false mvs alloc).1.filter (fun x => !x.tagged))
        = (executorPass false mvs alloc).1 :=
      List.filter_eq_self.mpr (fun x hx => by simp [h1tag x hx])
    refine ⟨le_of_eq hlen, ⟨(executorPass false mvs alloc).1, [], by simp, h1tag, by simp⟩,
      ?_, fun _ => h1tag, hconcrete⟩
    simp only [true_iff]
    rw [hfilter, hlen]
  · have hsel : select_package_versions_to_delete mvs alloc
        = { spawned := (executorPass false mvs alloc).1
              ++ (executorPass true mvs (executorPass false mvs alloc).2).1
            warned := false } := by
      unfold select_package_versions_to_delete
      simp [hz]
    have h2le := executorPass_length_le true mvs (executorPass false mvs alloc).2
    have h2tag := executorPass_tagged true mvs (executorPass false mvs alloc).2
    rw [hsel]
    have hfilter1 : ((executorPass false mvs alloc).1.filter (fun x => !x.tagged))
        = (executorPass false mvs alloc).1 :=
      List.filter_eq_self.mpr (fun x hx => by simp [h1tag x hx])
    have hfilter2 : ((executorPass true mvs (executorPass false mvs alloc).2).1.filter
        (fun x => !x.tagged)) = [] :=
      List.filter_eq_nil_iff.mpr (fun x hx => by simp [h2tag x hx])
    refine ⟨?_, ⟨(executorPass false mvs alloc).1,
        (executorPass true mvs (executorPass false mvs alloc).2).1, rfl, h1tag, h2tag⟩,
      ?_, ?_, hconcrete⟩
    · simp only [List.length_append]
      omega
    · simp only [Bool.false_eq_true, false_iff]
      rw [List.filter_append, hfilter1, hfilter2, List.append_nil]
      omega
    · intro h
      exact absurd h (by simp)

/-- Witness for C4 at a concrete input: in the budget-exhaustion scenario
at most three tasks are spawned. -/
theorem select_package_versions_to_delete_spec_witness :
    (select_package_versions_to_delete c4Map 3).spawned.length ≤ 3 :=
  (select_package_versions_to_delete_spec c4Map 3).1

theorem fetch_package_versions_remaining
    (filter_fn : List PackageVersion → PackageVersions)
    (pages : List (Page PackageVersion)) (c : Counts) (offset : Nat) :
    (fetch_package_versions_with_pagination filter_fn pages c offset).2.1.remaining_requests
      = c.remaining_requests
        - (fetch_package_versions_with_pagination filter_fn pages c offset).2.2 := by
  induction pages generalizing c with
  | nil => simp [fetch_package_versions_with_pagination]
  | cons page rest ih =>
    simp only [fetch_package_versions_with_pagination]
    split
    · simp
    · split
      · rename_i htail
        have := ih { remaining_requests := c.remaining_requests - 1
                     package_versions := c.package_versions + (filter_fn page.items).len }
        simp only at this ⊢
        omega
      · simp

theorem fetch_packages_counts_unchanged (pages : List (Page Package)) (c : Counts) :
    (fetch_packages_with_pagination pages c).2.1 = c := by
  induction pages generalizing c with
  | nil => rfl
  | cons page rest ih =>
    simp only [fetch_packages_with_pagination]
    split
    · rfl
    · split
      · exact ih c
      · rfl

/-- C5 counterexample: a successful (HTTP 204) non-dry-run delete issues
one request but leaves `Counts` untouched (`delete_package_version` has no
access to the counters in the source), so the decrement count (0) differs
from the request count (1) — refuting the claim that every successful
engine request decrements `remaining_requests` by exactly 1. -/
theorem counts_decrement_counterexample :
    (delete_package_version "p" (mkPV 5 "sha256:X" [] 0 none) false DeleteStatus.noContent
      { remaining_requests := 3, package_versions := 0 }).2.2 = 1
    ∧ (delete_package_version "p" (mkPV 5 "sha256:X" [] 0 none) false DeleteStatus.noContent
        { remaining_requests := 3, package_versions := 0 }).2.1
      = { remaining_requests := 3, package_versions := 0 }
    ∧ (3 : Nat)
        - (delete_package_version "p" (mkPV 5 "sha256:X" [] 0 none) false
            DeleteStatus.noContent
            { remaining_requests := 3, package_versions := 0 }).2.1.remaining_requests
        ≠ 1 := by
  decide

/-- C5 (amended): within a run `remaining_requests` never increases;
version-list page fetches decrement it by exactly one per request (the
final value is the initial value minus the request count, exactly when the
budget suffices), and an individual package fetch decrements it by one for
its single request; but package-list pagination and version deletions
leave the counters untouched while still issuing requests (deletes are
budgeted against a local snapshot instead). -/
theorem counts_bookkeeping (filter_fn : List PackageVersion → PackageVersions)
    (pages_v : List (Page PackageVersion)) (pages_p : List (Page Package))
    (c : Counts) (offset : Nat) (resp : Package) (name : String) (pv : PackageVersion)
    (dry : Bool) (st : DeleteStatus) :
    (fetch_package_versions_with_pagination filter_fn pages_v c offset).2.1.remaining_requests
      = c.remaining_requests
        - (fetch_package_versions_with_pagination filter_fn pages_v c offset).2.2
    ∧ ((fetch_package_versions_with_pagination filter_fn pages_v c offset).2.2
          ≤ c.remaining_requests →
        c.remaining_requests
          = (fetch_package_versions_with_pagination filter_fn pages_v c
              offset).2.1.remaining_requests
            + (fetch_package_versions_with_pagination filter_fn pages_v c offset).2.2)
    ∧ (fetch_individual_package resp c).2.1.remaining_requests = c.remaining_requests - 1
    ∧ (fetch_individual_package resp c).2.2 = 1
    ∧ (fetch_packages_with_pagination pages_p c).2.1 = c
    ∧ (delete_package_version name pv dry st c).2.1 = c
    ∧ (delete_package_version name pv dry st c).2.2 = (if dry then 0 else 1)
    ∧ (fetch_package_versions_with_pagination filter_fn pages_v c
        offset).2.1.remaining_requests ≤ c.remaining_requests := by
  have hrem := fetch_package_versions_remaining filter_fn pages_v c offset
  have hdel : (delete_package_version name pv dry st c).2.1 = c
      ∧ (delete_package_version name pv dry st c).2.2 = (if dry then 0 else 1) := by
    cases dry <;> cases st <;> simp [delete_package_version]
  refine ⟨hrem, ?_, rfl, rfl, fetch_packages_counts_unchanged pages_p c, hdel.1, hdel.2, ?_⟩
  · intro hle
    omega
  · omega

/-- Witness for C5 (amended) at a concrete input: fetching one
version-list page from a budget of 5 accounts exactly, 5 = 4 + 1. -/
theorem counts_bookkeeping_witness :
    (5 : Nat)
      = (fetch_package_versions_with_pagination (fun _ => { untagged := [], tagged := [] })
          [{ items := [], x_ratelimit_remaining := 10, has_next := false }]
          { remaining_requests := 5, package_versions := 0 } 0).2.1.remaining_requests
        + (fetch_package_versions_with_pagination (fun _ => { untagged := [], tagged := [] })
            [{ items := [], x_ratelimit_remaining := 10, has_next := false }]
            { remaining_requests := 5, package_versions := 0 } 0).2.2 :=
  (counts_bookkeeping (fun _ => { untagged := [], tagged := [] })
      [{ items := [], x_ratelimit_remaining := 10, has_next := false }] []
      { remaining_requests := 5, package_versions := 0 } 0 { id := 0, name := "" } ""
      (mkPV 0 "" [] 0 none) false DeleteStatus.noContent).2.1
    (by decide)

/-- C6: evaluation of the rate-limit scope check. For `Temporal` tokens no
check is performed and for `ClassicPersonalAccess` tokens a missing
`x-oauth-scopes` header or one without the `delete:packages` substring is
fatal — but for an `Oauth` token the source `match` has no arm at all
(`client.rs` lines 465-479 cover only `Temporal` and
`ClassicPersonalAccess` of the three-variant `Token`), so the required
fatal scope failure for `Oauth` does not exist in the code: the check
evaluates to `none` (undefined behavior) instead of `some false`. -/
theorem fetch_rate_limit_scope_check_eval :
    fetch_rate_limit_scope_check (Token.oauth "gho_x") (some "read:packages") = none
    ∧ fetch_rate_limit_scope_check (Token.oauth "gho_x") none = none
    ∧ fetch_rate_limit_scope_check (Token.classicPersonalAccess "ghp_x") none = some false
    ∧ fetch_rate_limit_scope_check (Token.classicPersonalAccess "ghp_x")
        (some "read:packages") = some false
    ∧ fetch_rate_limit_scope_check (Token.classicPersonalAccess "ghp_x")
        (some "read:packages, delete:packages, repo") = some true
    ∧ fetch_rate_limit_scope_check (Token.temporal "ghs_x") none = some true := by
  decide

theorem spec_full_match_isMatch {pre s : List Char}
    (h : spec_token_full_match pre s = true) : tokenRegexIsMatch pre s = true := by
  unfold spec_token_full_match at h
  simp only [Bool.and_eq_true, beq_iff_eq] at h
  obtain ⟨⟨hlen, htake⟩, hall⟩ := h
  unfold tokenRegexIsMatch
  rw [hlen]
  simp only [Nat.sub_self, List.drop_zero]
  rw [htake]
  simp [hall]

theorem spec_full_match_unique {preA preB s : List Char}
    (h : spec_token_full_match preA s = true) (hne : preA ≠ preB) :
    tokenRegexIsMatch preB s = false := by
  unfold spec_token_full_match at h
  simp only [Bool.and_eq_true, beq_iff_eq] at h
  obtain ⟨⟨hlen, htake⟩, _⟩ := h
  unfold tokenRegexIsMatch
  rw [hlen]
  simp only [Nat.sub_self, List.drop_zero]
  rw [htake]
  simp [hne]

/-- C7 counterexample: the stripped input `Xghp_aaa…a` (41 characters) is
not a whole-string match of `ghp_[A-Za-z0-9]{36}`, yet `try_from_str`
classifies it as a classic personal access token, because the source
regexes are anchored only at the end and `Regex::is_match` searches. -/
theorem try_from_str_counterexample :
    try_from_str ('X' :: ("ghp_".toList ++ List.replicate 36 'a'))
      = .ok (Token.classicPersonalAccess
          (String.mk ('X' :: ("ghp_".toList ++ List.replicate 36 'a'))))
    ∧ spec_token_full_match "ghp_".toList
        (trimMatchesChar '"' ('X' :: ("ghp_".toList ++ List.replicate 36 'a'))) = false := by
  exact ⟨rfl, rfl⟩

/-- C7 (amended): after stripping all surrounding double-quotes,
`Token::try_from_str` classifies by end-anchored (suffix) matches, tried
in order `ghp_`, `ghs_`, `gho_`: the result is `ClassicPersonalAccess`
iff the stripped string ends in `ghp_` plus 36 url-safe base62 characters,
`Temporal` iff it does not match the `ghp_` pattern but ends in `ghs_`
plus 36 such characters, `Oauth` likewise for `gho_`, and an error iff
none match. Strings that are exactly the prefix plus 36 characters (the
whole-string reading) are classified as the claim states — but so is any
string with such a suffix. -/
theorem try_from_str_spec (s : List Char) :
    (try_from_str s = .ok (.classicPersonalAccess (String.mk (trimMatchesChar '"' s)))
      ↔ tokenRegexIsMatch "ghp_".toList (trimMatchesChar '"' s) = true)
    ∧ (try_from_str s = .ok (.temporal (String.mk (trimMatchesChar '"' s)))
      ↔ (tokenRegexIsMatch "ghp_".toList (trimMatchesChar '"' s) = false
         ∧ tokenRegexIsMatch "ghs_".toList (trimMatchesChar '"' s) = true))
    ∧ (try_from_str s = .ok (.oauth (String.mk (trimMatchesChar '"' s)))
      ↔ (tokenRegexIsMatch "ghp_".toList (trimMatchesChar '"' s) = false
         ∧ tokenRegexIsMatch "ghs_".toList (trimMatchesChar '"' s) = false
         ∧ tokenRegexIsMatch "gho_".toList (trimMatchesChar '"' s) = true))
    ∧ (try_from_str s = .error "The token value is not valid."
      ↔ (tokenRegexIsMatch "ghp_".toList (trimMatchesChar '"' s) = false
         ∧ tokenRegexIsMatch "ghs_".toList (trimMatchesChar '"' s) = false
         ∧ tokenRegexIsMatch "gho_".toList (trimMatchesChar '"' s) = false))
    ∧ (spec_token_full_match "ghp_".toList (trimMatchesChar '"' s) = true →
        try_from_str s = .ok (.classicPersonalAccess (String.mk (trimMatchesChar '"' s))))
    ∧ (spec_token_full_match "ghs_".toList (trimMatchesChar '"' s) = true →
        try_from_str s = .ok (.temporal (String.mk (trimMatchesChar '"' s))))
    ∧ (spec_token_full_match "gho_".toList (trimMatchesChar '"' s) = true →
        try_from_str s = .ok (.oauth (String.mk (trimMatchesChar '"' s)))) := by
  have hmain :
      (try_from_str s = .ok (.classicPersonalAccess (String.mk (trimMatchesChar '"' s)))
        ↔ tokenRegexIsMatch "ghp_".toList (trimMatchesChar '"' s) = true)
      ∧ (try_from_str s = .ok (.temporal (String.mk (trimMatchesChar '"' s)))
        ↔ (tokenRegexIsMatch "ghp_".toList (trimMatchesChar '"' s) = false
           ∧ tokenRegexIsMatch "ghs_".toList (trimMatchesChar '"' s) = true))
      ∧ (try_from_str s = .ok (.oauth (String.mk (trimMatchesChar '"' s)))
        ↔ (tokenRegexIsMatch "ghp_".toList (trimMatchesChar '"' s) = false
           ∧ tokenRegexIsMatch "ghs_".toList (trimMatchesChar '"' s) = false
           ∧ tokenRegexIsMatch "gho_".toList (trimMatchesChar '"' s) = true))
      ∧ (try_from_str s = .error "The token value is not valid."
        ↔ (tokenRegexIsMatch "ghp_".toList (trimMatchesChar '"' s) = false
           ∧ tokenRegexIsMatch "ghs_".toList (trimMatchesChar '"' s) = false
           ∧ tokenRegexIsMatch "gho_".toList (trimMatchesChar '"' s) = false)) := by
    by_cases h1 : tokenRegexIsMatch ['g', 'h', 'p', '_'] (trimMatchesChar '"' s) = true
    · simp [try_from_str, h1]
    · by_cases h2 : tokenRegexIsMatch ['g', 'h', 's', '_'] (trimMatchesChar '"' s) = true
      · simp [try_from_str, h1, h2]
      · by_cases h3 : tokenRegexIsMatch ['g', 'h', 'o', '_'] (trimMatchesChar '"' s) = true
        · simp [try_from_str, h1, h2, h3]
        · simp [try_from_str, h1, h2, h3]
  refine ⟨hmain.1, hmain.2.1, hmain.2.2.1, hmain.2.2.2, ?_, ?_, ?_⟩
  · intro hfull
    exact hmain.1.mpr (spec_full_match_isMatch hfull)
  · intro hfull
    exact hmain.2.1.mpr
      ⟨spec_full_match_unique hfull (by decide), spec_full_match_isMatch hfull⟩
  · intro hfull
    exact hmain.2.2.1.mpr
      ⟨spec_full_match_unique hfull (by decide), spec_full_match_unique hfull (by decide),
        spec_full_match_isMatch hfull⟩

/-- Witness for C7 (amended) at a concrete input: a bare
`ghs_` + 36 base62 token classifies as `Temporal`. -/
theorem try_from_str_spec_witness :
    try_from_str ("ghs_".toList ++ List.replicate 36 'b')
      = .ok (Token.temporal
          (String.mk (trimMatchesChar '"' ("ghs_".toList ++ List.replicate 36 'b')))) :=
  (try_from_str_spec ("ghs_".toList ++ List.replicate 36 'b')).2.2.2.2.2.1 (by decide)

theorem le_length_percent_encode (bytes : List Nat) :
    bytes.length ≤ (percent_encode bytes).length := by
  induction bytes with
  | nil => simp [percent_encode]
  | cons b rest ih =>
    simp only [percent_encode, List.flatMap_cons, List.length_append, List.length_cons]
    have hb : 1 ≤ (percentEncodeByte b).length := by
      unfold percentEncodeByte
      split <;> simp
    unfold percent_encode at ih
    omega

theorem percent_encode_eq_iff (bytes : List Nat) :
    percent_encode bytes = bytes.map Char.ofNat
      ↔ ∀ b ∈ bytes, isUrlUnreserved b = true := by
  induction bytes with
  | nil => simp [percent_encode]
  | cons b rest ih =>
    constructor
    · intro h
      simp only [percent_encode, List.flatMap_cons, List.map_cons] at h
      by_cases hb : isUrlUnreserved b = true
      · rw [percentEncodeByte, if_pos hb] at h
        simp only [List.singleton_append, List.cons.injEq] at h
        intro x hx
        rcases List.mem_cons.mp hx with rfl | hx2
        · exact hb
        · exact (ih.mp h.2) x hx2
      · rw [percentEncodeByte, if_neg hb] at h
        have hlen := congrArg List.length h
        have hge := le_length_percent_encode rest
        simp only [List.length_append, List.length_cons, List.length_map] at hlen
        unfold percent_encode at hge
        omega
    · intro h
      simp only [percent_encode, List.flatMap_cons, List.map_cons]
      rw [percentEncodeByte, if_pos (h b (List.mem_cons_self b rest))]
      have htail : percent_encode rest = rest.map Char.ofNat :=
        ih.mpr (fun x hx => h x (List.mem_cons_of_mem b hx))
      unfold percent_encode at htail
      rw [htail]
      rfl

/-- C9 counterexample: `@` is printable ASCII and outside the claim's set
`{/, space}`, yet `percent_encode` turns it into `%40` rather than leaving
it unchanged (the `urlencoding` crate encodes everything outside
`[A-Za-z0-9-._~]`; the source's own test asserts
`my_package@1.0 → my_package%401.0`). -/
theorem percent_encode_counterexample :
    percent_encode (asciiBytes ['@']) = "%40".toList
    ∧ percent_encode (asciiBytes ['@']) ≠ ['@']
    ∧ '@' ≠ '/' ∧ '@' ≠ ' ' ∧ 32 ≤ '@'.toNat ∧ '@'.toNat < 127 := by
  exact ⟨rfl, by decide, by decide, by decide, by decide, by decide⟩

/-- C9 (amended): `percent_encode` returns its input unchanged exactly
when every byte is in the unreserved set `[A-Za-z0-9-._~]`; every byte
outside that set — in particular `/`, space, `@` and every non-ASCII
byte — is rendered as `%` plus two upper-case hex digits; the claim's
examples hold: `example → example`, `a/b → a%2Fb`,
`test test → test%20test` (and `my_package@1.0 → my_package%401.0`). -/
theorem percent_encode_spec :
    (∀ bytes : List Nat,
      (percent_encode bytes = bytes.map Char.ofNat
        ↔ ∀ b ∈ bytes, isUrlUnreserved b = true))
    ∧ (∀ b : Nat, isUrlUnreserved b = false →
        percentEncodeByte b = ['%', hexDigitUpper (b / 16 % 16), hexDigitUpper (b % 16)])
    ∧ percent_encode (asciiBytes "example".toList) = "example".toList
    ∧ percent_encode (asciiBytes "a/b".toList) = "a%2Fb".toList
    ∧ percent_encode (asciiBytes "test test".toList) = "test%20test".toList
    ∧ percent_encode (asciiBytes "my_package@1.0".toList) = "my_package%401.0".toList := by
  refine ⟨percent_encode_eq_iff, ?_, rfl, rfl, rfl, rfl⟩
  intro b hb
  rw [percentEncodeByte, if_neg (by simp [hb])]

/-- Witness for C9 (amended) at a concrete input: the single byte of `a`
is unreserved, so the encoding is the identity on it. -/
theorem percent_encode_spec_witness :
    percent_encode [97] = [97].map Char.ofNat :=
  (percent_encode_spec.1 [97]).mpr (by decide)

theorem parse_link_parts_ok_none_iff (parts : List (List Char)) :
    parse_link_parts parts = .ok none
      ↔ ∀ p ∈ parts, linkPartSkipped p = true := by
  induction parts with
  | nil => simp [parse_link_parts]
  | cons part rest ih =>
    by_cases h1 : containsSubstr part "prev".toList = true
    · simp only [parse_link_parts, h1, if_true, ih]
      constructor
      · intro h p hp
        rcases List.mem_cons.mp hp with rfl | hp2
        · unfold linkPartSkipped
          rw [h1]
          simp
        · exact h p hp2
      · intro h p hp
        exact h p (List.mem_cons_of_mem part hp)
    · by_cases h2 : containsSubstr part "first".toList = true
      · simp only [parse_link_parts, h1, h2, if_true, Bool.false_eq_true, if_false, ih]
        constructor
        · intro h p hp
          rcases List.mem_cons.mp hp with rfl | hp2
          · unfold linkPartSkipped
            rw [h2]
            simp
          · exact h p hp2
        · intro h p hp
          exact h p (List.mem_cons_of_mem part hp)
      · by_cases h3 : containsSubstr part "last".toList = true
        · simp only [parse_link_parts, h1, h2, h3, if_true, Bool.false_eq_true, if_false, ih]
          constructor
          · intro h p hp
            rcases List.mem_cons.mp hp with rfl | hp2
            · unfold linkPartSkipped
              rw [h3]
              simp
            · exact h p hp2
          · intro h p hp
            exact h p (List.mem_cons_of_mem part hp)
        · have h1f : containsSubstr part "prev".toList = false := by
            rw [← Bool.not_eq_true]; exact h1
          have h2f : containsSubstr part "first".toList = false := by
            rw [← Bool.not_eq_true]; exact h2
          have h3f : containsSubstr part "last".toList = false := by
            rw [← Bool.not_eq_true]; exact h3
          have hsk : linkPartSkipped part = false := by
            unfold linkPartSkipped
            rw [h1f, h2f, h3f]
            rfl
          by_cases h4 : containsSubstr part "next".toList = true
          · simp only [parse_link_parts, h1, h2, h3, h4, if_true, Bool.false_eq_true,
              if_false]
            constructor
            · intro h
              split at h <;> simp at h
            · intro h
              have := h part (List.mem_cons_self part rest)
              rw [hsk] at this
              simp at this
          · simp only [parse_link_parts, h1, h2, h3, h4, Bool.false_eq_true, if_false]
            constructor
            · intro h
              simp at h
            · intro h
              have := h part (List.mem_cons_self part rest)
              rw [hsk] at this
              simp at this

theorem parse_link_parts_append_skipped (pre rest : List (List Char))
    (h : ∀ q ∈ pre, linkPartSkipped q = true) :
    parse_link_parts (pre ++ rest) = parse_link_parts rest := by
  induction pre with
  | nil => rfl
  | cons q pre ih =>
    have hq := h q (List.mem_cons_self q pre)
    have htail : ∀ r ∈ pre, linkPartSkipped r = true :=
      fun r hr => h r (List.mem_cons_of_mem q hr)
    by_cases h1 : containsSubstr q "prev".toList = true
    · simp only [List.cons_append, parse_link_parts, h1, if_true]
      exact ih htail
    · by_cases h2 : containsSubstr q "first".toList = true
      · simp only [List.cons_append, parse_link_parts, h1, h2, if_true,
          Bool.false_eq_true, if_false]
        exact ih htail
      · have h1f : containsSubstr q "prev".toList = false := by
          rw [← Bool.not_eq_true]; exact h1
        have h2f : containsSubstr q "first".toList = false := by
          rw [← Bool.not_eq_true]; exact h2
        have h3 : containsSubstr q "last".toList = true := by
          unfold linkPartSkipped at hq
          rw [h1f, h2f] at hq
          simpa using hq
        simp only [List.cons_append, parse_link_parts, h1, h2, h3, if_true,
          Bool.false_eq_true, if_false]
        exact ih htail

/-- C10: link-header parsing is not total. `parse_link_header` returns
`Ok none` exactly for the empty header or when every comma-part is
skipped as `prev`/`first`/`last`; when the scan reaches a part containing
none of the four substrings it panics (`Found unrecognized rel type`, e.g.
on `rel="foo"`), and when the part selected as `next` does not split on
`;` into exactly two sections the `assert_eq!` aborts. -/
theorem parse_link_header_spec :
    (∀ s : List Char, s.isEmpty = false →
      (parse_link_header s = .ok none
        ↔ ∀ p ∈ splitOnChar ',' s, linkPartSkipped p = true))
    ∧ (∀ pre part post, (∀ q ∈ pre, linkPartSkipped q = true) →
        linkPartSkipped part = false →
        containsSubstr part "next".toList = false →
        parse_link_parts (pre ++ part :: post) = .error "Found unrecognized rel type")
    ∧ (∀ pre part post, (∀ q ∈ pre, linkPartSkipped q = true) →
        linkPartSkipped part = false →
        containsSubstr part "next".toList = true →
        (splitOnChar ';' (trimAsciiWs part)).length ≠ 2 →
        parse_link_parts (pre ++ part :: post)
          = .error "assert failed: sections length was not 2")
    ∧ parse_link_header [] = .ok none
    ∧ parse_link_header "rel=\"foo\"".toList = .error "Found unrecognized rel type"
    ∧ parse_link_header "<u>; rel=\"next\"; x".toList
        = .error "assert failed: sections length was not 2" := by
  refine ⟨?_, ?_, ?_, rfl, rfl, rfl⟩
  · intro s hs
    unfold parse_link_header
    rw [hs]
    simp only [Bool.false_eq_true, if_false]
    exact parse_link_parts_ok_none_iff (splitOnChar ',' s)
  · intro pre part post hpre hskip hnext
    rw [parse_link_parts_append_skipped pre (part :: post) hpre]
    unfold linkPartSkipped at hskip
    simp only [Bool.or_eq_false_iff] at hskip
    simp only [parse_link_parts, hskip.1.1, hskip.1.2, hskip.2, hnext,
      Bool.false_eq_true, if_false]
  · intro pre part post hpre hskip hnext hsec
    rw [parse_link_parts_append_skipped pre (part :: post) hpre]
    unfold linkPartSkipped at hskip
    simp only [Bool.or_eq_false_iff] at hskip
    simp only [parse_link_parts, hskip.1.1, hskip.1.2, hskip.2, hnext,
      Bool.false_eq_true, if_false, if_true]
    rw [if_neg (by simpa using hsec)]

/-- Witness for C10 at a concrete input: after one part skipped as `last`,
a part with no recognized rel substring panics. -/
theorem parse_link_header_spec_witness :
    parse_link_parts (["rel=last".toList] ++ "rel=foo".toList :: [])
      = .error "Found unrecognized rel type" :=
  parse_link_header_spec.2.1 ["rel=last".toList] "rel=foo".toList []
    (by decide) (by decide) (by decide)

end CRP
